/-
Verification of the acoustic-event analysis pipeline (audio_analysis.py).

Shallow embedding conventions:
* Machine floats are modelled by `ℚ`.  All arithmetic the detectors perform
  (sums, means, differences, divisions) is exact in `ℚ`.
* The external DSP library (librosa / numpy feature extraction) is outside the
  repository; detectors receive the per-frame feature sequences as inputs,
  exactly as the spec's component model describes (FeatureFrameExtractor is an
  external collaborator producing aligned per-frame feature values).
* `librosa.frames_to_time(i, sr=sr, hop_length=512) = i * 512 / sr` is embedded
  as `framesToTime`.
* Comparisons of the form `x > c + k * sqrt(v)` and `norm(u - w) > c` are
  embedded by their exact square-free equivalents over ℚ
  (`x > c ∧ (x - c)^2 > k^2 * v`, resp. `distSq u w > c^2`), which agree with
  the float comparisons up to the monotonicity of `sqrt` on nonnegatives.
* `np.mean` / `np.median` of an empty array is NaN in numpy (with a warning);
  it is modelled as `0` here.  Every NaN produced that way in the source flows
  only into `>`/`<` comparisons, where numpy yields `False`; the claims proved
  below never depend on a branch where this modelling choice differs from the
  source (noted at each use site).
-/
import Mathlib

namespace AudioAnalysis

/-- `librosa.frames_to_time(i, sr=sr, hop_length=512)`: frame index to seconds. -/
def framesToTime (i : ℕ) (sr : ℚ) : ℚ := (i * 512) / sr

/-- `np.mean` of a 1-d array (empty array: numpy NaN, modelled as 0). -/
def npMean (l : List ℚ) : ℚ := l.sum / l.length

/-- Population variance, the square of `np.std` (empty array: NaN, modelled 0). -/
def npVar (l : List ℚ) : ℚ := npMean (l.map (fun x => (x - npMean l) ^ 2))

/-- `np.median`: middle element of the sorted data (average of the two middle
elements for even length; empty array: NaN, modelled as 0). -/
def npMedian (l : List ℚ) : ℚ :=
  let s := l.mergeSort (fun a b => decide (a ≤ b))
  if l.length = 0 then 0
  else if l.length % 2 = 1 then s.getD (l.length / 2) 0
  else (s.getD (l.length / 2 - 1) 0 + s.getD (l.length / 2) 0) / 2

/-- Python slice `l[a:b]` (for the nonnegative indices the source uses). -/
def pySlice (a b : ℕ) (l : List ℚ) : List ℚ := (l.drop a).take (b - a)

/-- A `{'type':'silence', 'start':…, 'end':…, 'duration':…}` dict
(`end` is not a valid Lean identifier; the field is called `stop`). -/
structure Silence where
  start : ℚ
  stop : ℚ
  duration : ℚ
  deriving DecidableEq, Repr

/-- A `{'type':'loudness_change', 'time':…, 'magnitude':…}` dict. -/
structure LoudnessChange where
  time : ℚ
  magnitude : ℚ
  deriving DecidableEq, Repr

/-- A `{'type': 'speech'|'music', 'start':…, 'end':…, 'confidence':…}` dict. -/
structure SpeechMusic where
  isSpeech : Bool
  start : ℚ
  stop : ℚ
  confidence : ℚ
  deriving DecidableEq, Repr

/-- A `{'type':'speaker_change', 'time':…, 'distance':…}` dict.  The stored
`distanceSq` is the square of the source's Euclidean `distance` (see header). -/
structure SpeakerChange where
  time : ℚ
  distanceSq : ℚ
  deriving DecidableEq, Repr

/-! ### detect_silence (audio_analysis.py lines 63–104)

The mel-spectrogram/dB step is external DSP; `energy` below is the per-frame
mean dB energy (`np.mean(S_db, axis=0)`).  The loop over `silent_frames` with
its `start` state is embedded as `silenceLoop` over the Booleans
`energy < threshold_db`, carrying the running index `i` and the open `start`. -/

def silenceLoop (sr : ℚ) : List Bool → ℕ → Option ℚ → List Silence
  | [], _, none => []
  | [], i, some s => [⟨s, framesToTime i sr, framesToTime i sr - s⟩]
  | b :: rest, i, none =>
      if b then silenceLoop sr rest (i + 1) (some (framesToTime i sr))
      else silenceLoop sr rest (i + 1) none
  | b :: rest, i, some s =>
      if b then silenceLoop sr rest (i + 1) (some s)
      else ⟨s, framesToTime i sr, framesToTime i sr - s⟩ ::
        silenceLoop sr rest (i + 1) none

/-- `detect_silence(y, sr, threshold_db=-40)`, over the frame energy series. -/
def detect_silence (energy : List ℚ) (sr : ℚ) (threshold_db : ℚ) : List Silence :=
  silenceLoop sr (energy.map (fun e => decide (e < threshold_db))) 0 none

/-! ### detect_loudness_changes (lines 107–132)

`rms` is the external `librosa.feature.rms` series.  `np.convolve(a, ones(20)/20,
mode='same')` is embedded index-wise: `full[k] = (Σ_{j ≤ k < j+20} a[j]) / 20`,
and mode `'same'` keeps `max(len a, 20)` entries starting at offset
`(min(len a, 20) - 1) / 2`.  (`np.convolve` raises on an empty input; the
empty case is modelled as an empty output, and no claim depends on it.)
`diff > mean + 1.5·std` is embedded square-free as
`mean < diff ∧ (3/2)^2·var < (diff - mean)^2`. -/

def convFull (a : List ℚ) (k : ℕ) : ℚ :=
  (((List.range a.length).filter (fun j => decide (j ≤ k) && decide (k < j + 20))).map
    (fun j => a.getD j 0)).sum / 20

def movingAvgSame (a : List ℚ) : List ℚ :=
  if a.length = 0 then []
  else (List.range (max a.length 20)).map (fun i => convFull a (i + (min a.length 20 - 1) / 2))

/-- `np.abs(np.diff(l))`. -/
def absDiff (l : List ℚ) : List ℚ := List.zipWith (fun x y => |y - x|) l l.tail

/-- The source's `d > threshold` where `threshold = np.mean(diff) + np.std(diff) * 1.5`,
in exact square-free form. -/
def exceedsLoudness (diff : List ℚ) (d : ℚ) : Bool :=
  decide (npMean diff < d) && decide ((3 / 2) ^ 2 * npVar diff < (d - npMean diff) ^ 2)

/-- `detect_loudness_changes(y, sr, frame_length=2048, hop_length=512)`, over the
RMS series: `np.where(rmse_diff > threshold)[0]` then one event per index. -/
def detect_loudness_changes (rms : List ℚ) (sr : ℚ) : List LoudnessChange :=
  let diff := absDiff (movingAvgSame rms)
  let changes := (List.range diff.length).filter (fun i => exceedsLoudness diff (diff.getD i 0))
  changes.map (fun i => ⟨framesToTime i sr, diff.getD i 0⟩)

/-! ### detect_speech_vs_music (lines 135–172)

`zcr` and `centroid` are the external per-frame feature series (librosa
guarantees they have the same frame count; the source uses `len(zcr)` as the
frame count for both, and so does the embedding). -/

def detect_speech_vs_music (zcr centroid : List ℚ) (sr : ℚ) : List SpeechMusic :=
  let frame_length := zcr.length
  let segment_size := frame_length / 20
  (List.range 20).map (fun i =>
    let start_frame := i * segment_size
    let end_frame := min ((i + 1) * segment_size) frame_length
    let avg_zcr := npMean (pySlice start_frame end_frame zcr)
    let avg_centroid := npMean (pySlice start_frame end_frame centroid)
    let is_speech := decide (npMedian zcr < avg_zcr) &&
      decide (avg_centroid < npMedian centroid * (6 / 5))
    ⟨is_speech, framesToTime start_frame sr, framesToTime end_frame sr, 7 / 10⟩)

/-! ### detect_speaker_changes (lines 175–206)

The 13×n MFCC matrix is represented as the list of its n column vectors.
`np.mean(mfcc[:, a:b], axis=1)` is the coefficient-wise mean `vecMean` of the
column slice (empty slice: NaN vector in numpy, modelled as `[]`, for which
`distSq` is 0 — in both models no event is emitted, since `NaN > 2.0` is
`False`).  `np.linalg.norm(cur - prev) > 2.0` is embedded square-free as
`distSq cur prev > 4`. -/

def vecAdd (u v : List ℚ) : List ℚ := List.zipWith (· + ·) u v

def vecScale (c : ℚ) (u : List ℚ) : List ℚ := u.map (fun x => c * x)

/-- Squared Euclidean norm of the difference of two vectors. -/
def distSq (u v : List ℚ) : ℚ := (List.zipWith (fun x y => (x - y) ^ 2) u v).sum

def colSlice (a b : ℕ) (m : List (List ℚ)) : List (List ℚ) := (m.drop a).take (b - a)

def vecMean : List (List ℚ) → List ℚ
  | [] => []
  | c :: cs => vecScale (1 / ((cs.length + 1 : ℕ) : ℚ)) (cs.foldl vecAdd c)

/-- `np.mean(mfcc[:, i*seg : min((i+1)*seg, n)], axis=1)`. -/
def windowMeanM (mfcc : List (List ℚ)) (seg i : ℕ) : List ℚ :=
  vecMean (colSlice (i * seg) (min ((i + 1) * seg) mfcc.length) mfcc)

/-- The source's `for i in range(20)` loop, carrying `prev_mfcc`. -/
def speakerAux (sr : ℚ) (mfcc : List (List ℚ)) (seg : ℕ) :
    List ℕ → Option (List ℚ) → List SpeakerChange
  | [], _ => []
  | i :: rest, prev =>
      let current := windowMeanM mfcc seg i
      let tail := speakerAux sr mfcc seg rest (some current)
      match prev with
      | none => tail
      | some p =>
          if 4 < distSq current p then
            ⟨framesToTime (i * seg) sr, distSq current p⟩ :: tail
          else tail

/-- `detect_speaker_changes(y, sr)`, over the MFCC column matrix. -/
def detect_speaker_changes (mfcc : List (List ℚ)) (sr : ℚ) : List SpeakerChange :=
  speakerAux sr mfcc (mfcc.length / 20) (List.range 20) none

/-! ### merge_segments (lines 209–228) -/

/-- One element of the `all_events` list: any of the four dict shapes. -/
inductive Event
  | silence : Silence → Event
  | loudness : LoudnessChange → Event
  | speechMusic : SpeechMusic → Event
  | speakerChange : SpeakerChange → Event
  deriving DecidableEq, Repr

/-- `x.get('start')`. -/
def eventStart? : Event → Option ℚ
  | .silence s => some s.start
  | .speechMusic w => some w.start
  | _ => none

/-- `x.get('time')`. -/
def eventTime? : Event → Option ℚ
  | .loudness l => some l.time
  | .speakerChange c => some c.time
  | _ => none

/-- Python `a or b` for `a` a `dict.get` result (`None` or a float, falsy when
`None` or `0.0`) and `b` a number. -/
def pyOr (a : Option ℚ) (b : ℚ) : ℚ :=
  match a with
  | none => b
  | some v => if v = 0 then b else v

/-- The sort key `lambda x: x.get('start') or x.get('time') or 0`. -/
def sortKey (e : Event) : ℚ := pyOr (eventStart? e) (pyOr (eventTime? e) 0)

/-- `merge_segments`: concatenate the four lists, then `list.sort` (a stable
ascending sort, embedded as `mergeSort`) by `sortKey`. -/
def merge_segments (silences : List Silence) (loudness_segments : List LoudnessChange)
    (speech_music_segments : List SpeechMusic)
    (speaker_changes : List SpeakerChange) : List Event :=
  ((silences.map Event.silence) ++ (loudness_segments.map Event.loudness) ++
   (speech_music_segments.map Event.speechMusic) ++
   (speaker_changes.map Event.speakerChange)).mergeSort
    (fun x y => decide (sortKey x ≤ sortKey y))

/-! ### analyze_audio (lines 16–60)

`librosa.load` and the feature extraction calls are external and fallible; the
whole fallible prefix is modelled as an `Except String Features` input.  Any
exception raised during loading, decoding or feature computation puts the call
in the `.error` branch (the source's `except Exception`); otherwise `Features`
holds the decoded signal length, sample rate and the per-frame feature series.
`librosa.get_duration(y=y, sr=sr) = len(y)/sr`.  The output dict, whose keys
are present or absent per branch, is a record of `Option` fields. -/

structure Features where
  yLen : ℕ
  sr : ℚ
  energy : List ℚ
  rms : List ℚ
  zcr : List ℚ
  centroid : List ℚ
  mfcc : List (List ℚ)
  deriving DecidableEq, Repr

structure AnalysisOutcome where
  success : Bool
  duration : Option ℚ
  sample_rate : Option ℚ
  segments : Option (List Event)
  silences : Option (List Silence)
  loudness_segments : Option (List LoudnessChange)
  speech_music : Option (List SpeechMusic)
  speaker_changes : Option (List SpeakerChange)
  error : Option String
  deriving DecidableEq, Repr

def analyze_audio (input : Except String Features) : AnalysisOutcome :=
  match input with
  | .error e => ⟨false, none, none, none, none, none, none, none, some e⟩
  | .ok f =>
      let silences := detect_silence f.energy f.sr (-40)
      let loudness := detect_loudness_changes f.rms f.sr
      let speechMusic := detect_speech_vs_music f.zcr f.centroid f.sr
      let speakers := detect_speaker_changes f.mfcc f.sr
      ⟨true, some ((f.yLen : ℚ) / f.sr), some f.sr,
        some (merge_segments silences loudness speechMusic speakers),
        some silences, some loudness, some speechMusic, some speakers, none⟩

/-! ## Helper lemmas -/

/-- The primary time field of an event: `start` for span events, `time` for
point events (the spec's sort key, restated from its words). -/
def primaryTime : Event → ℚ
  | .silence s => s.start
  | .loudness l => l.time
  | .speechMusic w => w.start
  | .speakerChange c => c.time

theorem sortKey_eq_primaryTime (e : Event) : sortKey e = primaryTime e := by
  cases e <;> simp only [sortKey, primaryTime, eventStart?, eventTime?, pyOr] <;>
    split <;> simp_all

theorem framesToTime_le (sr : ℚ) (hsr : 0 < sr) {i j : ℕ} (hij : i ≤ j) :
    framesToTime i sr ≤ framesToTime j sr := by
  unfold framesToTime
  apply div_le_div_of_nonneg_right _ hsr.le
  have : (i : ℚ) ≤ (j : ℚ) := by exact_mod_cast hij
  nlinarith

theorem framesToTime_lt (sr : ℚ) (hsr : 0 < sr) {i j : ℕ} (hij : i < j) :
    framesToTime i sr < framesToTime j sr := by
  unfold framesToTime
  apply div_lt_div_of_pos_right _ hsr
  have : (i : ℚ) < (j : ℚ) := by exact_mod_cast hij
  nlinarith

theorem framesToTime_zero (sr : ℚ) : framesToTime 0 sr = 0 := by
  simp [framesToTime]

/-- The silence spans form a chain: each starts no earlier than `lo`, is
nonempty, records its duration exactly, and ends before the next begins. -/
def SilenceChain (lo : ℚ) : List Silence → Prop
  | [] => True
  | s :: rest => lo ≤ s.start ∧ s.start < s.stop ∧ s.duration = s.stop - s.start ∧
      SilenceChain s.stop rest

theorem silenceLoop_chain (sr : ℚ) (hsr : 0 < sr) :
    ∀ (bs : List Bool) (i : ℕ) (st : Option ℚ) (lo : ℚ),
      (st = none → lo ≤ framesToTime i sr) →
      (∀ s, st = some s → lo ≤ s ∧ s < framesToTime i sr) →
      SilenceChain lo (silenceLoop sr bs i st)
  | [], i, none, lo, _, _ => by simp [silenceLoop, SilenceChain]
  | [], i, some s, lo, _, hsome => by
      obtain ⟨h1, h2⟩ := hsome s rfl
      simp only [silenceLoop]
      exact ⟨h1, h2, rfl, trivial⟩
  | b :: rest, i, none, lo, hnone, _ => by
      simp only [silenceLoop]
      split
      · exact silenceLoop_chain sr hsr rest (i + 1) _ lo (by simp)
          (fun s hs => by
            cases hs
            exact ⟨hnone rfl, framesToTime_lt sr hsr (Nat.lt_succ_self i)⟩)
      · exact silenceLoop_chain sr hsr rest (i + 1) none lo
          (fun _ => le_trans (hnone rfl) (framesToTime_le sr hsr (Nat.le_succ i)))
          (by simp)
  | b :: rest, i, some s, lo, _, hsome => by
      obtain ⟨h1, h2⟩ := hsome s rfl
      simp only [silenceLoop]
      split
      · exact silenceLoop_chain sr hsr rest (i + 1) (some s) lo (by simp)
          (fun u hu => by
            cases hu
            exact ⟨h1, lt_trans h2 (framesToTime_lt sr hsr (Nat.lt_succ_self i))⟩)
      · refine ⟨h1, h2, rfl, ?_⟩
        exact silenceLoop_chain sr hsr rest (i + 1) none (framesToTime i sr)
          (fun _ => framesToTime_le sr hsr (Nat.le_succ i)) (by simp)

theorem silenceChain_props : ∀ {lo : ℚ} {l : List Silence}, SilenceChain lo l →
    (∀ s ∈ l, lo ≤ s.start ∧ s.start < s.stop ∧ s.duration = s.stop - s.start) ∧
    l.Pairwise (fun a b => a.stop ≤ b.start)
  | _, [], _ => ⟨by simp, List.Pairwise.nil⟩
  | lo, s :: rest, h => by
      obtain ⟨h1, h2, h3, h4⟩ := h
      obtain ⟨ih1, ih2⟩ := silenceChain_props h4
      constructor
      · intro u hu
        rcases List.mem_cons.mp hu with rfl | hu
        · exact ⟨h1, h2, h3⟩
        · obtain ⟨hle, hlt, hdur⟩ := ih1 u hu
          exact ⟨le_trans h1 (le_trans (le_of_lt h2) hle), hlt, hdur⟩
      · exact List.Pairwise.cons (fun u hu => (ih1 u hu).1) ih2

/-! ## Claims -/

/-- **C1.** The merged `segments` sequence produced by `merge_segments` is
sorted non-decreasing by each event's primary time field (`start` for span
events, `time` for point events), and its length is the sum of the lengths of
the four detector output sequences. -/
theorem merge_segments_sorted_and_length (a : List Silence) (b : List LoudnessChange)
    (c : List SpeechMusic) (d : List SpeakerChange) :
    (merge_segments a b c d).Pairwise (fun x y => primaryTime x ≤ primaryTime y) ∧
    (merge_segments a b c d).length = a.length + b.length + c.length + d.length := by
  constructor
  · have h := @List.sorted_mergeSort Event
      (fun x y : Event => decide (sortKey x ≤ sortKey y))
      (fun x y z hxy hyz => by
        simp only [decide_eq_true_eq] at *
        exact le_trans hxy hyz)
      (fun x y => by
        simp only [Bool.or_eq_true, decide_eq_true_eq]
        exact le_total _ _)
      ((a.map Event.silence) ++ (b.map Event.loudness) ++
        (c.map Event.speechMusic) ++ (d.map Event.speakerChange))
    refine List.Pairwise.imp ?_ h
    intro x y hxy
    simp only [decide_eq_true_eq] at hxy
    rwa [sortKey_eq_primaryTime, sortKey_eq_primaryTime] at hxy
  · simp only [merge_segments, List.length_mergeSort, List.length_append, List.length_map]

/-- **C2.** For every frame energy sequence and every threshold, each silence
span emitted by `detect_silence` satisfies `stop > start` and
`duration = stop - start`, and no two emitted spans overlap (each span ends no
later than the next begins). -/
theorem detect_silence_invariants (energy : List ℚ) (threshold_db sr : ℚ)
    (hsr : 0 < sr) :
    (∀ s ∈ detect_silence energy sr threshold_db,
      s.start < s.stop ∧ s.duration = s.stop - s.start) ∧
    (detect_silence energy sr threshold_db).Pairwise (fun a b => a.stop ≤ b.start) := by
  have h := silenceLoop_chain sr hsr (energy.map (fun e => decide (e < threshold_db)))
    0 none 0 (fun _ => by simp [framesToTime_zero]) (by simp)
  obtain ⟨h1, h2⟩ := silenceChain_props h
  exact ⟨fun s hs => ⟨(h1 s hs).2.1, (h1 s hs).2.2⟩, h2⟩

/-- Witness for C2 at a concrete input. -/
theorem detect_silence_invariants_witness :
    (∀ s ∈ detect_silence [-50, -10, -50] 512 (-40),
      s.start < s.stop ∧ s.duration = s.stop - s.start) ∧
    (detect_silence [-50, -10, -50] 512 (-40)).Pairwise (fun a b => a.stop ≤ b.start) :=
  detect_silence_invariants [-50, -10, -50] (-40) 512 (by norm_num)

/-- Window `i` of `detect_speech_vs_music` spans frames
`[i * (n / 20), (i + 1) * (n / 20))`: the `min` clamp in the source never
fires, since `(i + 1) * (n / 20) ≤ 20 * (n / 20) ≤ n` for every `i < 20`. -/
theorem speech_windows_map_eq (zcr centroid : List ℚ) (sr : ℚ) :
    (detect_speech_vs_music zcr centroid sr).map (fun w => (w.start, w.stop)) =
      (List.range 20).map (fun i =>
        (framesToTime (i * (zcr.length / 20)) sr,
         framesToTime ((i + 1) * (zcr.length / 20)) sr)) := by
  simp only [detect_speech_vs_music, List.map_map]
  apply List.map_congr_left
  intro i hi
  have hi20 : i < 20 := List.mem_range.mp hi
  have hle : (i + 1) * (zcr.length / 20) ≤ zcr.length := by
    calc (i + 1) * (zcr.length / 20) ≤ 20 * (zcr.length / 20) :=
          Nat.mul_le_mul_right _ (by omega)
      _ = zcr.length / 20 * 20 := Nat.mul_comm _ _
      _ ≤ zcr.length := Nat.div_mul_le_self _ _
  simp [Nat.min_eq_left hle]

/-- **C3, counterexample.**  With 21 frames (`segment_size = 21 / 20 = 1`) the
20 windows produced by `detect_speech_vs_music` end at time 20 while the frame
range lasts until time 21 (with `sr = 512` each frame hop is one second): the
instant 20 lies in `[0, duration)` but in no window, so the windows do not
cover `[0, duration)` — the last window does not absorb the remainder. -/
theorem speech_windows_coverage_cex :
    (20 : ℚ) < framesToTime 21 512 ∧
    ∀ w ∈ detect_speech_vs_music (List.replicate 21 0) (List.replicate 21 0) 512,
      ¬(w.start ≤ 20 ∧ (20 : ℚ) < w.stop) := by
  have key := speech_windows_map_eq (List.replicate 21 0) (List.replicate 21 0) 512
  have hf : ∀ j : ℕ, framesToTime j 512 = (j : ℚ) := by
    intro j
    unfold framesToTime
    rw [mul_div_assoc]
    norm_num
  constructor
  · rw [hf]; norm_num
  · intro w hw hcontra
    have hmem : (w.start, w.stop) ∈
        (detect_speech_vs_music (List.replicate 21 0) (List.replicate 21 0) 512).map
          (fun w => (w.start, w.stop)) := List.mem_map_of_mem _ hw
    rw [key] at hmem
    simp only [List.mem_map, List.mem_range, List.length_replicate,
      Nat.reduceDiv, Nat.mul_one, Prod.mk.injEq] at hmem
    obtain ⟨i, hi, hstart, hstop⟩ := hmem
    rw [hf] at hstart hstop
    obtain ⟨h1, h2⟩ := hcontra
    rw [← hstop] at h2
    have : (20 : ℚ) < (i : ℚ) + 1 := by exact_mod_cast h2
    have : (20 : ℕ) < i + 1 := by exact_mod_cast this
    omega

/-- **C3, amended.**  `detect_speech_vs_music` always emits exactly 20 windows,
contiguous and starting at time 0: window `i` spans
`[t(i * (n / 20)), t((i + 1) * (n / 20)))`.  Together they cover
`[0, t(20 * (n / 20)))` only: the `n % 20` trailing frames remain uncovered
(the last window does not absorb the remainder), so the windows cover
`[0, duration)` exactly when 20 divides the frame count. -/
theorem speech_windows_layout (zcr centroid : List ℚ) (sr : ℚ) :
    (detect_speech_vs_music zcr centroid sr).length = 20 ∧
    (detect_speech_vs_music zcr centroid sr).map (fun w => (w.start, w.stop)) =
      (List.range 20).map (fun i =>
        (framesToTime (i * (zcr.length / 20)) sr,
         framesToTime ((i + 1) * (zcr.length / 20)) sr)) :=
  ⟨by simp [detect_speech_vs_music], speech_windows_map_eq zcr centroid sr⟩

/-- **C10.**  When there are fewer than 20 frames, `segment_size = n / 20 = 0`,
so all 20 windows emitted by `detect_speech_vs_music` are zero-width with
`start = stop = 0` (and the per-window means are means of empty slices). -/
theorem speech_windows_degenerate (zcr centroid : List ℚ) (sr : ℚ)
    (h : zcr.length < 20) :
    (detect_speech_vs_music zcr centroid sr).length = 20 ∧
    ∀ w ∈ detect_speech_vs_music zcr centroid sr, w.start = 0 ∧ w.stop = 0 := by
  have hseg : zcr.length / 20 = 0 := Nat.div_eq_of_lt h
  constructor
  · simp [detect_speech_vs_music]
  · intro w hw
    simp only [detect_speech_vs_music, hseg, List.mem_map] at hw
    obtain ⟨i, _, rfl⟩ := hw
    simp [framesToTime_zero]

/-- Witness for C10 at a concrete input. -/
theorem speech_windows_degenerate_witness :
    (detect_speech_vs_music [5] [3] 7).length = 20 ∧
    ∀ w ∈ detect_speech_vs_music [5] [3] 7, w.start = 0 ∧ w.stop = 0 :=
  speech_windows_degenerate [5] [3] 7 (by decide)

theorem speakerAux_cons_none (sr : ℚ) (mfcc : List (List ℚ)) (seg i : ℕ)
    (rest : List ℕ) :
    speakerAux sr mfcc seg (i :: rest) none =
      speakerAux sr mfcc seg rest (some (windowMeanM mfcc seg i)) := rfl

theorem speakerAux_cons_some (sr : ℚ) (mfcc : List (List ℚ)) (seg i : ℕ)
    (rest : List ℕ) (p : List ℚ) :
    speakerAux sr mfcc seg (i :: rest) (some p) =
      if 4 < distSq (windowMeanM mfcc seg i) p then
        ⟨framesToTime (i * seg) sr, distSq (windowMeanM mfcc seg i) p⟩ ::
          speakerAux sr mfcc seg rest (some (windowMeanM mfcc seg i))
      else speakerAux sr mfcc seg rest (some (windowMeanM mfcc seg i)) := rfl

/-- Running the `prev_mfcc` loop from window `a ≥ 1` onward, with the previous
window's mean in hand, emits exactly the qualifying windows. -/
theorem speakerAux_range' (sr : ℚ) (mfcc : List (List ℚ)) (seg : ℕ) :
    ∀ (k a : ℕ), 1 ≤ a →
      speakerAux sr mfcc seg (List.range' a k) (some (windowMeanM mfcc seg (a - 1))) =
      (List.range' a k).filterMap (fun i =>
        if 4 < distSq (windowMeanM mfcc seg i) (windowMeanM mfcc seg (i - 1)) then
          some ⟨framesToTime (i * seg) sr,
            distSq (windowMeanM mfcc seg i) (windowMeanM mfcc seg (i - 1))⟩
        else none)
  | 0, a, _ => by simp [speakerAux]
  | k + 1, a, ha => by
      rw [List.range'_succ]
      have ih := speakerAux_range' sr mfcc seg k (a + 1) (by omega)
      simp only [Nat.add_sub_cancel] at ih
      simp only [speakerAux, List.filterMap_cons]
      have ha1 : a - 1 + 1 = a := Nat.succ_pred_eq_of_pos ha
      split
      · rw [ih]
      · rw [ih]

/-- `detect_speaker_changes` as a window comprehension over windows 1–19 (the
loop runs `i = 0,…,19` and window 0, having no predecessor, never emits): one
event per window whose mean-MFCC squared distance to the previous window
exceeds `4 = 2²`, anchored at the window's start time and carrying that
squared distance. -/
theorem detect_speaker_changes_eq (mfcc : List (List ℚ)) (sr : ℚ) :
    detect_speaker_changes mfcc sr =
      (List.range' 1 19).filterMap (fun i =>
        if 4 < distSq (windowMeanM mfcc (mfcc.length / 20) i)
            (windowMeanM mfcc (mfcc.length / 20) (i - 1)) then
          some ⟨framesToTime (i * (mfcc.length / 20)) sr,
            distSq (windowMeanM mfcc (mfcc.length / 20) i)
              (windowMeanM mfcc (mfcc.length / 20) (i - 1))⟩
        else none) := by
  have hrange : List.range 20 = 0 :: List.range' 1 19 := by
    rw [List.range_eq_range', List.range'_succ]
  unfold detect_speaker_changes
  rw [hrange, speakerAux_cons_none]
  have h := speakerAux_range' sr mfcc (mfcc.length / 20) 19 1 le_rfl
  simpa using h

/-- **C4.**  `detect_speaker_changes` emits an event exactly for those windows
`i ≥ 1` whose mean-MFCC vector lies at Euclidean distance `> 2.0` from the
previous window's mean vector (embedded square-free: squared distance `> 4`),
anchored at that window's start time and carrying that (squared) distance;
window 0 (the head of `List.range 20` handled by the `prev_mfcc = None` branch)
never produces an event, and every emitted event has (squared) distance above
the threshold. -/
theorem detect_speaker_changes_spec (mfcc : List (List ℚ)) (sr : ℚ) :
    (detect_speaker_changes mfcc sr =
      (List.range' 1 19).filterMap (fun i =>
        if 4 < distSq (windowMeanM mfcc (mfcc.length / 20) i)
            (windowMeanM mfcc (mfcc.length / 20) (i - 1)) then
          some ⟨framesToTime (i * (mfcc.length / 20)) sr,
            distSq (windowMeanM mfcc (mfcc.length / 20) i)
              (windowMeanM mfcc (mfcc.length / 20) (i - 1))⟩
        else none)) ∧
    ∀ e ∈ detect_speaker_changes mfcc sr, 4 < e.distanceSq := by
  refine ⟨detect_speaker_changes_eq mfcc sr, ?_⟩
  intro e he
  rw [detect_speaker_changes_eq] at he
  simp only [List.mem_filterMap] at he
  obtain ⟨i, _, hi⟩ := he
  split at hi
  · next h =>
      cases hi
      exact h
  · cases hi

/-- `(l.filter p).map f` is the `filterMap` of the pointwise combination
(`np.where` followed by an appending loop, as in the source). -/
theorem filter_map_eq_filterMap {α β : Type} (p : α → Bool) (f : α → β) :
    ∀ l : List α, (l.filter p).map f =
      l.filterMap (fun x => if p x then some (f x) else none)
  | [] => rfl
  | x :: l => by
      simp only [List.filter_cons, List.filterMap_cons]
      split
      · simp only [List.map_cons, filter_map_eq_filterMap p f l]
      · exact filter_map_eq_filterMap p f l

/-- **C6.**  `detect_loudness_changes` smooths the RMS series with a width-20
moving average, takes the absolute first difference `diff`, and emits one event
with magnitude `diff[i]` at every index `i` where `diff[i]` exceeds
`mean(diff) + 1.5 * std(diff)` (embedded square-free:
`mean < diff[i]` and `(3/2)² · var < (diff[i] - mean)²`), with no
de-duplication — each qualifying index yields its own event. -/
theorem detect_loudness_changes_spec (rms : List ℚ) (sr : ℚ) :
    detect_loudness_changes rms sr =
      (List.range (absDiff (movingAvgSame rms)).length).filterMap (fun i =>
        if npMean (absDiff (movingAvgSame rms)) < (absDiff (movingAvgSame rms)).getD i 0 ∧
            (3 / 2) ^ 2 * npVar (absDiff (movingAvgSame rms)) <
              ((absDiff (movingAvgSame rms)).getD i 0 -
                npMean (absDiff (movingAvgSame rms))) ^ 2 then
          some ⟨framesToTime i sr, (absDiff (movingAvgSame rms)).getD i 0⟩
        else none) := by
  unfold detect_loudness_changes
  rw [filter_map_eq_filterMap]
  apply List.filterMap_congr
  intro i _
  simp only [exceedsLoudness, Bool.and_eq_true, decide_eq_true_eq]

/-- **C5.**  `analyze_audio` is all-or-nothing: any failure during loading,
decoding or feature computation (the `.error` branch of the fallible external
step) yields `success = false` carrying the underlying message, with no
duration, sample rate or event list present; on success every field is
present (duration, sample rate, the merged timeline and the four detector
sequences) and no error is. -/
theorem analyze_audio_all_or_nothing (input : Except String Features) :
    (∀ e, input = Except.error e →
      analyze_audio input = ⟨false, none, none, none, none, none, none, none, some e⟩) ∧
    ((analyze_audio input).success = true →
      (analyze_audio input).error = none ∧
      (analyze_audio input).duration.isSome ∧
      (analyze_audio input).sample_rate.isSome ∧
      (analyze_audio input).segments.isSome ∧
      (analyze_audio input).silences.isSome ∧
      (analyze_audio input).loudness_segments.isSome ∧
      (analyze_audio input).speech_music.isSome ∧
      (analyze_audio input).speaker_changes.isSome) := by
  constructor
  · intro e he
    subst he
    rfl
  · intro hs
    cases input with
    | error e => simp [analyze_audio] at hs
    | ok f => simp [analyze_audio]

/-- Witness for C5 at concrete failing and succeeding inputs. -/
theorem analyze_audio_all_or_nothing_witness :
    analyze_audio (Except.error "decode failed") =
      ⟨false, none, none, none, none, none, none, none, some "decode failed"⟩ ∧
    (analyze_audio (Except.ok ⟨0, 22050, [], [], [], [], []⟩)).error = none := by
  constructor
  · exact (analyze_audio_all_or_nothing (Except.error "decode failed")).1
      "decode failed" rfl
  · exact ((analyze_audio_all_or_nothing (Except.ok ⟨0, 22050, [], [], [], [], []⟩)).2
      rfl).1

/-- **C8.**  The pipeline is a pure function of its input: two invocations of
`analyze_audio` on the same input produce identical outcomes. -/
theorem analyze_audio_deterministic (input₁ input₂ : Except String Features)
    (h : input₁ = input₂) : analyze_audio input₁ = analyze_audio input₂ :=
  congrArg analyze_audio h

/-- Witness for C8 at a concrete input. -/
theorem analyze_audio_deterministic_witness :
    analyze_audio (Except.error "x") = analyze_audio (Except.error "x") :=
  analyze_audio_deterministic (Except.error "x") (Except.error "x") rfl

/-! ## All-silent / all-zero input helpers (C7) -/

theorem silenceLoop_cons_none_true (sr : ℚ) (rest : List Bool) (i : ℕ) :
    silenceLoop sr (true :: rest) i none =
      silenceLoop sr rest (i + 1) (some (framesToTime i sr)) := rfl

theorem silenceLoop_replicate_true (sr : ℚ) :
    ∀ (k i : ℕ) (s : ℚ), silenceLoop sr (List.replicate k true) i (some s) =
      [⟨s, framesToTime (i + k) sr, framesToTime (i + k) sr - s⟩]
  | 0, i, s => by simp [silenceLoop]
  | k + 1, i, s => by
      rw [List.replicate_succ]
      have step : silenceLoop sr (true :: List.replicate k true) i (some s) =
          silenceLoop sr (List.replicate k true) (i + 1) (some s) := rfl
      rw [step, silenceLoop_replicate_true sr k (i + 1) s]
      have harith : i + 1 + k = i + (k + 1) := by omega
      rw [harith]

/-- If every frame is below the silence floor, `detect_silence` emits exactly
one span `[0, t(n)]` of duration `t(n)`. -/
theorem detect_silence_all_silent (energy : List ℚ) (threshold_db sr : ℚ)
    (hne : energy ≠ []) (hall : ∀ e ∈ energy, e < threshold_db) :
    detect_silence energy sr threshold_db =
      [⟨0, framesToTime energy.length sr, framesToTime energy.length sr⟩] := by
  obtain ⟨a, rest, rfl⟩ := List.exists_cons_of_ne_nil hne
  unfold detect_silence
  have hmap : (a :: rest).map (fun e => decide (e < threshold_db)) =
      List.replicate (rest.length + 1) true := by
    rw [List.eq_replicate_iff]
    refine ⟨by simp, ?_⟩
    intro b hb
    simp only [List.mem_map] at hb
    obtain ⟨x, hx, rfl⟩ := hb
    simpa using hall x hx
  rw [hmap, List.replicate_succ, silenceLoop_cons_none_true,
    silenceLoop_replicate_true, framesToTime_zero]
  have harith : 1 + rest.length = (a :: rest).length := by
    simp only [List.length_cons]
    omega
  rw [harith, sub_zero]

theorem absDiff_all_zero :
    ∀ (l : List ℚ), (∀ x ∈ l, x = 0) → ∀ y ∈ absDiff l, y = 0
  | [] => by simp [absDiff]
  | [a] => by simp [absDiff]
  | a :: b :: t => by
      intro h y hy
      have hstep : absDiff (a :: b :: t) = |b - a| :: absDiff (b :: t) := rfl
      rw [hstep] at hy
      rcases List.mem_cons.mp hy with rfl | hy
      · rw [h a (by simp), h b (by simp)]
        simp
      · exact absDiff_all_zero (b :: t) (fun x hx => h x (List.mem_cons_of_mem _ hx)) y hy

theorem getD_all_zero {l : List ℚ} (h : ∀ x ∈ l, x = 0) (i : ℕ) : l.getD i 0 = 0 := by
  rcases lt_or_ge i l.length with hlt | hge
  · rw [List.getD_eq_getElem _ _ hlt]
    exact h _ (List.getElem_mem hlt)
  · exact List.getD_eq_default _ _ hge

theorem movingAvgSame_all_zero (a : List ℚ) (h : ∀ x ∈ a, x = 0) :
    ∀ y ∈ movingAvgSame a, y = 0 := by
  intro y hy
  unfold movingAvgSame at hy
  split at hy
  · simp at hy
  · simp only [List.mem_map] at hy
    obtain ⟨i, _, rfl⟩ := hy
    unfold convFull
    rw [List.sum_eq_zero, zero_div]
    intro x hx
    simp only [List.mem_map] at hx
    obtain ⟨j, _, rfl⟩ := hx
    exact getD_all_zero h j

/-- An all-zero RMS series produces no loudness-change events. -/
theorem detect_loudness_changes_all_zero (rms : List ℚ) (sr : ℚ)
    (h : ∀ x ∈ rms, x = 0) : detect_loudness_changes rms sr = [] := by
  have hdiff : ∀ y ∈ absDiff (movingAvgSame rms), y = 0 :=
    absDiff_all_zero _ (movingAvgSame_all_zero rms h)
  have hmean : npMean (absDiff (movingAvgSame rms)) = 0 := by
    unfold npMean
    rw [List.sum_eq_zero hdiff, zero_div]
  have hfilter : (List.range (absDiff (movingAvgSame rms)).length).filter
      (fun i => exceedsLoudness (absDiff (movingAvgSame rms))
        ((absDiff (movingAvgSame rms)).getD i 0)) = [] := by
    rw [List.filter_eq_nil_iff]
    intro i _
    simp only [exceedsLoudness, getD_all_zero hdiff i, hmean]
    norm_num
  simp only [detect_loudness_changes, hfilter, List.map_nil]

theorem foldl_vecAdd_replicate (c : List ℚ) :
    ∀ m : ℕ, List.foldl vecAdd c (List.replicate m c) =
      c.map (fun x => ((m : ℚ) + 1) * x)
  | 0 => by
      simp only [List.replicate_zero, List.foldl_nil, Nat.cast_zero, zero_add, one_mul]
      exact (List.map_id c).symm
  | m + 1 => by
      rw [List.replicate_succ', List.foldl_append, foldl_vecAdd_replicate c m]
      simp only [List.foldl_cons, List.foldl_nil]
      unfold vecAdd
      rw [List.zipWith_map_left, List.zipWith_same]
      apply List.map_congr_left
      intro x _
      push_cast
      ring

theorem vecMean_replicate (c : List ℚ) (m : ℕ) :
    vecMean (List.replicate (m + 1) c) = c := by
  rw [List.replicate_succ]
  show vecScale (1 / (((List.replicate m c).length + 1 : ℕ) : ℚ))
    (List.foldl vecAdd c (List.replicate m c)) = c
  rw [foldl_vecAdd_replicate c m, List.length_replicate]
  unfold vecScale
  rw [List.map_map]
  have hne : ((m : ℚ) + 1) ≠ 0 := by positivity
  conv_rhs => rw [← List.map_id c]
  apply List.map_congr_left
  intro x _
  push_cast
  field_simp

theorem windowMeanM_replicate (c : List ℚ) (k : ℕ) (hk : 20 ≤ k)
    {i : ℕ} (hi : i < 20) :
    windowMeanM (List.replicate k c) (k / 20) i = c := by
  unfold windowMeanM colSlice
  rw [List.length_replicate]
  have hseg1 : 1 ≤ k / 20 := (Nat.one_le_div_iff (by norm_num)).mpr hk
  have hend : (i + 1) * (k / 20) ≤ k := by
    calc (i + 1) * (k / 20) ≤ 20 * (k / 20) := Nat.mul_le_mul_right _ (by omega)
      _ = k / 20 * 20 := Nat.mul_comm _ _
      _ ≤ k := Nat.div_mul_le_self _ _
  rw [Nat.min_eq_left hend, List.drop_replicate, List.take_replicate]
  have hd : (i + 1) * (k / 20) - i * (k / 20) = k / 20 := by
    have : (i + 1) * (k / 20) = i * (k / 20) + k / 20 := by ring
    omega
  have hcount : min ((i + 1) * (k / 20) - i * (k / 20)) (k - i * (k / 20)) = k / 20 := by
    rw [hd]
    apply Nat.min_eq_left
    have : (i + 1) * (k / 20) = i * (k / 20) + k / 20 := by ring
    omega
  rw [hcount]
  obtain ⟨m, hm⟩ : ∃ m, k / 20 = m + 1 := ⟨k / 20 - 1, by omega⟩
  rw [hm]
  exact vecMean_replicate c m

theorem distSq_self (c : List ℚ) : distSq c c = 0 := by
  unfold distSq
  rw [List.zipWith_same, List.sum_eq_zero]
  intro x hx
  simp only [List.mem_map] at hx
  obtain ⟨y, _, rfl⟩ := hx
  simp

/-- A constant MFCC matrix (all columns equal) with at least 20 columns
produces no speaker-change events. -/
theorem detect_speaker_changes_const (c : List ℚ) (k : ℕ) (hk : 20 ≤ k) (sr : ℚ) :
    detect_speaker_changes (List.replicate k c) sr = [] := by
  rw [detect_speaker_changes_eq]
  rw [List.filterMap_eq_nil_iff]
  intro i hi
  have hi' : 1 ≤ i ∧ i < 20 := by
    rw [List.mem_range'] at hi
    omega
  simp only [List.length_replicate]
  rw [windowMeanM_replicate c k hk hi'.2, windowMeanM_replicate c k hk (by omega : i - 1 < 20),
    distSq_self]
  rw [if_neg (by norm_num)]

theorem silenceLoop_replicate_false (sr : ℚ) :
    ∀ (k i : ℕ), silenceLoop sr (List.replicate k false) i none = []
  | 0, _ => by simp [silenceLoop]
  | k + 1, i => by
      rw [List.replicate_succ]
      have step : silenceLoop sr (false :: List.replicate k false) i none =
          silenceLoop sr (List.replicate k false) (i + 1) none := rfl
      rw [step]
      exact silenceLoop_replicate_false sr k (i + 1)

/-- The energy series an all-zero waveform actually gets from the source's
`power_to_db(S, ref=np.max)` is identically 0 dB: the conversion is relative
to the signal's own peak power, and with `S ≡ 0` both `S` and the reference
are floored to the same `amin`, so `S_db ≡ 0` and every frame mean is 0.
At threshold −40 no frame is silent and `detect_silence` emits no span. -/
theorem detect_silence_all_zero_db (n : ℕ) (sr : ℚ) :
    detect_silence (List.replicate n 0) sr (-40) = [] := by
  unfold detect_silence
  have hdec : decide ((0 : ℚ) < -40) = false := by norm_num
  rw [List.map_replicate, hdec, silenceLoop_replicate_false]

/-- **C7 (code bug).**  Evaluates the code at the claim's input.  For an
all-zero waveform the feature series are: energy identically 0 dB (see
`detect_silence_all_zero_db` — the peak-relative dB conversion maps silence to
0 dB, not below the −40 floor), RMS identically 0, and a constant MFCC matrix.
On these features `detect_silence` returns NO span — contradicting the claimed
single span `{start 0, end L, duration L}` — while the claim's other two
conjuncts do hold: no `LoudnessChange` and no `SpeakerChange` events. -/
theorem all_zero_waveform_events (n m k : ℕ) (c : List ℚ) (sr : ℚ)
    (hk : 20 ≤ k) :
    detect_silence (List.replicate n 0) sr (-40) = [] ∧
    detect_loudness_changes (List.replicate m 0) sr = [] ∧
    detect_speaker_changes (List.replicate k c) sr = [] :=
  ⟨detect_silence_all_zero_db n sr,
   detect_loudness_changes_all_zero _ sr (fun _ hx => List.eq_of_mem_replicate hx),
   detect_speaker_changes_const c k hk sr⟩

/-- Witness for the C7 evaluation at a concrete all-zero input. -/
theorem all_zero_waveform_events_witness :
    detect_silence (List.replicate 5 0) 512 (-40) = [] ∧
    detect_loudness_changes (List.replicate 3 0) 512 = [] ∧
    detect_speaker_changes (List.replicate 20 [1]) 512 = [] :=
  all_zero_waveform_events 5 3 20 [1] 512 (by norm_num)

/-- **C9, counterexample.**  A zero-length waveform whose external feature
step succeeds (decoded length 0, one RMS frame as the centered framing yields,
no other frames) produces an outcome with `success = true` and `duration = 0`
in which the `speech_music` list is *not* empty — it holds the 20 degenerate
windows — so the "success with all segment lists empty" policy is not what the
code implements, and no decode error occurs either. -/
theorem zero_length_policy_cex :
    (analyze_audio (Except.ok ⟨0, 22050, [], [0], [], [], []⟩)).success = true ∧
    (analyze_audio (Except.ok ⟨0, 22050, [], [0], [], [], []⟩)).duration = some 0 ∧
    ∀ l, (analyze_audio (Except.ok ⟨0, 22050, [], [0], [], [], []⟩)).speech_music = some l →
      l.length = 20 := by
  refine ⟨rfl, ?_, ?_⟩
  · simp [analyze_audio]
  · intro l hl
    simp only [analyze_audio, Option.some.injEq] at hl
    rw [← hl]
    simp [detect_speech_vs_music]

/-- **C9, amended.**  A zero-length waveform yields either a failure outcome
(when the external decode/feature step raises) or `success = true` with
`duration = 0`; in the success case the segment lists are *not* all empty:
`speech_music` always holds exactly 20 (degenerate) windows. -/
theorem zero_length_outcome (f : Features) (h0 : f.yLen = 0) :
    (analyze_audio (Except.ok f)).success = true ∧
    (analyze_audio (Except.ok f)).duration = some 0 ∧
    (∃ l, (analyze_audio (Except.ok f)).speech_music = some l ∧ l.length = 20) ∧
    ∀ e : String, (analyze_audio (Except.error e)).success = false := by
  refine ⟨rfl, ?_, ?_, fun e => rfl⟩
  · simp [analyze_audio, h0]
  · exact ⟨detect_speech_vs_music f.zcr f.centroid f.sr, rfl,
      by simp [detect_speech_vs_music]⟩

/-- Witness for the amended C9 at a concrete zero-length input. -/
theorem zero_length_outcome_witness :
    (analyze_audio (Except.ok ⟨0, 22050, [], [], [], [], []⟩)).success = true ∧
    (analyze_audio (Except.ok ⟨0, 22050, [], [], [], [], []⟩)).duration = some 0 ∧
    (∃ l, (analyze_audio (Except.ok ⟨0, 22050, [], [], [], [], []⟩)).speech_music =
      some l ∧ l.length = 20) ∧
    ∀ e : String, (analyze_audio (Except.error e)).success = false :=
  zero_length_outcome ⟨0, 22050, [], [], [], [], []⟩ rfl

end AudioAnalysis
